import Mathlib

/-
Verification of the download-manager core of the yvd repository
(src/channel_downloader.py) against its natural-language specification.

The Python module is shallowly embedded: filesystem effects are made
explicit as state passed in and out, network calls to the video provider
are modelled as oracle inputs describing the provider behaviour, and a
Python exception is modelled as an Except.error result (or as an early
exit carrying the state at the point the exception escaped).
-/

namespace YVD

/-! ## Path resolver (ChannelDownloader.get_channel_dir, get_video_id) -/

/-- Embeds os.path.join for the two-component joins used by the module. -/
def pathJoin (a b : String) : String := a ++ "/" ++ b

/-- Embeds ChannelDownloader.get_video_id: if "watch?v=" occurs in the url,
take what stands between it and the next ampersand, otherwise take the last
slash-separated segment. -/
def get_video_id (url : String) : String :=
  let parts := url.splitOn "watch?v="
  if parts.length > 1 then
    (((parts.drop 1).headD "").splitOn "&").headD ""
  else
    (url.splitOn "/").getLastD ""

/-- Modelled from the spec: the sanitized channel name used by the Path
Resolver description, namely the channel name with a leading at sign
stripped.  The source get_channel_dir has no such sanitization; this
definition exists only to compare the spec wording with the code. -/
def sanitize_channel_spec (s : String) : String :=
  match s.data with
  | '@' :: rest => String.mk rest
  | _ => s

/-- Embeds ChannelDownloader.get_channel_dir.  The filesystem is modelled
as the list of existing directories; the function returns the channel path
and the updated directory list (os.makedirs is only invoked when the
directory is absent, so the call never raises an already-exists error). -/
def get_channel_dir (dirs : List String) (output_dir channel_name : String) :
    String × List String :=
  let channel_dir := pathJoin output_dir channel_name
  if channel_dir ∈ dirs then (channel_dir, dirs)
  else (channel_dir, channel_dir :: dirs)

/-! ## Resolution selector (ChannelDownloader.get_stream_by_resolution) -/

/-- A provider stream descriptor; only the resolution label is consulted
by get_stream_by_resolution. -/
structure YStream where
  resolution : Option String
deriving DecidableEq, Repr

/-- Embeds the Python expression label.replace("p", "") as a character
filter on the string data. -/
def stripP (s : String) : List Char := s.data.filter (fun c => c ≠ 'p')

/-- Decimal value of a character list; agrees with the Python int() parse
on digit-only strings, which is the only use site. -/
def digitsToNat (cs : List Char) : Nat :=
  cs.foldl (fun n c => n * 10 + (c.toNat - 48)) 0

/-- Embeds int(label.replace("p", "")). -/
def resInt (s : String) : Nat := digitsToNat (stripP s)

/-- Numeric sort key of a stream: the parsed resolution label, with a
missing label keyed as zero (such streams are dropped before sorting, so
the default is never consulted on the sorted list). -/
def resKey (s : YStream) : Nat :=
  match s.resolution with
  | some r => resInt r
  | none => 0

/-- Insertion step of the descending sort. -/
def insertDesc (x : YStream) : List YStream → List YStream
  | [] => [x]
  | y :: ys => if resKey y < resKey x then x :: y :: ys else y :: insertDesc x ys

/-- Insertion sort, descending by numeric resolution. -/
def sortDesc : List YStream → List YStream
  | [] => []
  | x :: xs => insertDesc x (sortDesc xs)

/-- Embeds streams.order_by("resolution").desc() from the stream library:
streams without a resolution attribute are dropped, the rest are sorted by
the integer value of the label, descending. -/
def order_by_resolution_desc (streams : List YStream) : List YStream :=
  sortDesc (streams.filter (fun s => s.resolution.isSome))

/-- Embeds the for-loop of get_stream_by_resolution: first stream in the
(descending) list whose parsed resolution is at most the target; streams
without a resolution label are skipped by the continue statement. -/
def findLE (target : Nat) : List YStream → Option YStream
  | [] => none
  | s :: rest =>
      match s.resolution with
      | none => findLE target rest
      | some r => if resInt r ≤ target then some s else findLE target rest

/-- Embeds ChannelDownloader.get_stream_by_resolution.  The input list is
the raw progressive mp4 stream collection delivered by the provider; the
order_by and filter calls of the source line are part of the embedding.
The trailing last-resort return of the source is the same expression as the
highest-available fallback and is covered by the final head?. -/
def get_stream_by_resolution (streams : List YStream) (preferred_resolution : String) :
    Option YStream :=
  let sorted := order_by_resolution_desc streams
  if sorted.isEmpty then none
  else
    let target := resInt preferred_resolution
    match sorted.find? (fun s => s.resolution == some preferred_resolution) with
    | some exact => some exact
    | none =>
        match findLE target sorted with
        | some s => some s
        | none => sorted.head?

/-! ## Catalog cache: channel video list (ChannelDownloader.get_video_urls) -/

/-- One provider response to a paginated search request: either an
exception, or a page of watch urls together with the presence of a
nextPageToken. -/
inductive PageResp
  | err
  | page (urls : List String) (hasNext : Bool)

/-- The while-loop body of get_video_urls iterated over the successive
provider responses: accumulated urls plus a flag recording whether the
walk ended in a provider exception. -/
def walkPages : List PageResp → List String → List String × Bool
  | [], acc => (acc, false)
  | PageResp.err :: _, acc => (acc, true)
  | PageResp.page us true :: rest, acc => walkPages rest (acc ++ us)
  | PageResp.page us false :: _, acc => (acc ++ us, false)

/-- The whole while-loop of get_video_urls: the stop flag is read by the
loop condition, so a set flag before the first iteration yields an empty
accumulation without touching the provider responses. -/
def walk (stop : Bool) (resps : List PageResp) : List String × Bool :=
  if stop then ([], false) else walkPages resps []

/-- Embeds ChannelDownloader.get_video_urls.  State: the channel video
list file, modelled as the parsed urls of a well-formed file when present.
Oracles: channelOk models whether get_channel_id succeeds, resps the
paginated search responses.  Result: the returned urls (or a propagated
exception), the file content after the call, and whether the provider was
contacted.  The source has no exception handler, so a provider error
escapes before the file write is reached. -/
def get_video_urls (force_refresh stop : Bool) (cached : Option (List String))
    (channelOk : Bool) (resps : List PageResp) :
    Except Unit (List String) × Option (List String) × Bool :=
  if force_refresh = false ∧ cached.isSome = true then
    (Except.ok (cached.getD []), cached, false)
  else if channelOk = false then
    (Except.error (), cached, true)
  else
    let w := walk stop resps
    if w.2 = true then (Except.error (), cached, true)
    else (Except.ok w.1, some w.1, true)

/-! ## Catalog cache: per-video metadata
(VideoMetadataModel, save_video_metadata, get_video_metadata) -/

/-- A small JSON value universe, enough to serialize the metadata model. -/
inductive JVal
  | str (s : String)
  | num (n : Int)
  | nullv
  | list (xs : List JVal)

/-- Embeds the pydantic VideoMetadataModel.  The publish date is modelled
as a nullable rendered timestamp; the raw provider metadata field is an
opaque JSON list. -/
structure VideoMetadataModel where
  file_name : String
  url : String
  title : String
  description : String
  author : String
  length : Int
  date : Option String
  keywords : List String
  channel_url : String
  metadata : List JVal

/-- Serialization of the nullable date field. -/
def encodeDate : Option String → JVal
  | some s => JVal.str s
  | none => JVal.nullv

/-- Deserialization of the nullable date field. -/
def decodeDate : JVal → Option (Option String)
  | JVal.str s => some (some s)
  | JVal.nullv => some none
  | _ => none

/-- Deserialization of a JSON string list into the keywords field. -/
def decodeStrList : List JVal → Option (List String)
  | [] => some []
  | JVal.str s :: rest => (decodeStrList rest).map (fun l => s :: l)
  | _ => none

/-- Embeds metadata.model_dump_json: the serialized document is the keyed
field list written to the metadata file. -/
def encodeMeta (m : VideoMetadataModel) : List (String × JVal) :=
  [("file_name", JVal.str m.file_name), ("url", JVal.str m.url),
   ("title", JVal.str m.title), ("description", JVal.str m.description),
   ("author", JVal.str m.author), ("length", JVal.num m.length),
   ("date", encodeDate m.date), ("keywords", JVal.list (m.keywords.map JVal.str)),
   ("channel_url", JVal.str m.channel_url), ("metadata", JVal.list m.metadata)]

/-- Embeds VideoMetadataModel.model_validate_json: validates the exact
document shape produced by the serializer; anything else fails
validation. -/
def decodeMeta (doc : List (String × JVal)) : Option VideoMetadataModel :=
  match doc with
  | [(k1, JVal.str fn), (k2, JVal.str u), (k3, JVal.str t), (k4, JVal.str d),
     (k5, JVal.str a), (k6, JVal.num len), (k7, dv), (k8, JVal.list kv),
     (k9, JVal.str cu), (k10, JVal.list mv)] =>
      if k1 = "file_name" ∧ k2 = "url" ∧ k3 = "title" ∧ k4 = "description" ∧
         k5 = "author" ∧ k6 = "length" ∧ k7 = "date" ∧ k8 = "keywords" ∧
         k9 = "channel_url" ∧ k10 = "metadata" then
        match decodeDate dv, decodeStrList kv with
        | some dd, some ks => some ⟨fn, u, t, d, a, len, dd, ks, cu, mv⟩
        | _, _ => none
      else none
  | _ => none

/-- The per-video metadata file, as state. -/
structure MetaFS where
  file : Option (List (String × JVal))

/-- Embeds ChannelDownloader.save_video_metadata on its success path: the
record built from the provider fields is serialized and written to the
metadata file. -/
def save_video_metadata (fs : MetaFS) (m : VideoMetadataModel) : MetaFS :=
  { file := some (encodeMeta m) }

/-- Embeds save_video_metadata including its failure behaviour: the
function body has no exception handler, so a failure while building the
record or writing the file escapes to the caller as an exception
(Except.error), leaving the previous file state. -/
def save_video_metadata_io (writeOk : Bool) (fs : MetaFS) (m : VideoMetadataModel) :
    Except Unit MetaFS :=
  if writeOk then Except.ok (save_video_metadata fs m) else Except.error ()

/-- Embeds ChannelDownloader.get_video_metadata.  On a cache hit (no
force_refresh and the file exists) the file content is validated and
returned.  Otherwise the provider record is fetched and saved, and the
function re-invokes itself without force_refresh; that recursive call
always lands in the cache branch because the file was just written, so it
is inlined here as reading back the freshly written file (the recursion
depth is exactly one). -/
def get_video_metadata (force_refresh : Bool) (fs : MetaFS)
    (provider : VideoMetadataModel) : Option VideoMetadataModel × MetaFS :=
  if force_refresh = false ∧ fs.file.isSome = true then
    (decodeMeta (fs.file.getD []), fs)
  else
    let fs2 := save_video_metadata fs provider
    (decodeMeta (fs2.file.getD []), fs2)

/-! ## Download orchestrator (ChannelDownloader.download_video,
rename_video_files, is_video_downloaded, download_channel) -/

/-- The on-disk files of one video, sizes as Nat: the temporary
<id>.downloading.mp4, the final <id>.mp4, the cached <id>.json metadata
(presence only), and the optional target location files used by the
target_path flow. -/
structure VFS where
  temp : Option Nat
  final : Option Nat
  meta : Bool
  targetVideo : Option Nat
  targetMeta : Bool
deriving DecidableEq, Repr

/-- Oracle describing the provider and filesystem behaviour of one
download_video run: whether the YouTube handle construction and field
access succeed, whether the metadata file write succeeds, whether a stream
was selected (after the highest-resolution fallback), whether
stream.download returns normally, how many bytes it writes to the
temporary file, and whether the os.rename calls of rename_video_files
succeed. -/
structure Env where
  fetchOk : Bool
  metaWriteOk : Bool
  streamFound : Bool
  dlOk : Bool
  renameOk : Bool
  dlBytes : Nat
deriving DecidableEq, Repr

/-- Result of a download_video run: the returned boolean, the filesystem
state after the run, and whether the provider stream download was
invoked. -/
structure DVResult where
  success : Bool
  fs : VFS
  streamInvoked : Bool
deriving DecidableEq, Repr

/-- Embeds ChannelDownloader.is_video_downloaded: the final file exists
and has non-zero size. -/
def is_video_downloaded (fs : VFS) : Bool :=
  match fs.final with
  | some n => decide (0 < n)
  | none => false

/-- Embeds ChannelDownloader.rename_video_files: move the final video
file to the target path when it exists, then move the metadata file to the
target stem plus .json when it exists; an OS error is caught inside the
function and reported as a false return with the move not performed (the
failure is modelled as occurring at the first rename). -/
def rename_video_files (ok : Bool) (fs : VFS) : Bool × VFS :=
  if ok then
    let fs1 : VFS :=
      match fs.final with
      | some n => { fs with final := none, targetVideo := some n }
      | none => fs
    let fs2 : VFS :=
      if fs1.meta then { fs1 with meta := false, targetMeta := true } else fs1
    (true, fs2)
  else (false, fs)

/-- Embeds ChannelDownloader.download_video, mirroring the source order:
stop-flag short circuit; removal of a stale temporary file; YouTube handle
construction and stream selection (an exception here is caught by the
outer handler); metadata save (an exception here is likewise caught, so a
metadata failure aborts this video); stream.download writing to the
temporary name; the non-zero-size verification; os.replace promoting the
temporary file to the final name; the optional target rename; and the
finally block that removes a leftover temporary file on every path. -/
def download_video (stop : Bool) (env : Env) (target : Bool) (fs0 : VFS) : DVResult :=
  if stop then ⟨false, fs0, false⟩
  else
    let fs1 : VFS := { fs0 with temp := none }
    if env.fetchOk then
      if env.metaWriteOk then
        let fs2 : VFS := { fs1 with meta := true }
        if env.streamFound then
          let fs3 : VFS := { fs2 with temp := some env.dlBytes }
          if env.dlOk then
            if 0 < env.dlBytes then
              let fs4 : VFS := { fs3 with temp := none, final := some env.dlBytes }
              if target then
                ⟨true, (rename_video_files env.renameOk fs4).2, true⟩
              else ⟨true, fs4, true⟩
            else ⟨false, { fs3 with temp := none }, true⟩
          else ⟨false, { fs3 with temp := none }, true⟩
        else ⟨false, fs2, false⟩
      else ⟨false, fs1, false⟩
    else ⟨false, fs1, false⟩

/-- The primitive filesystem operations download_video performs on the
video file paths, used to examine interrupted runs. -/
inductive FsOp
  | removeTemp
  | writeMeta
  | writeTemp (n : Nat)
  | promote
  | moveFinal
  | moveMeta

/-- Effect of one primitive operation on the video filesystem state.
removeTemp embeds the guarded os.remove (a no-op when the file is
absent); promote embeds os.replace of the temporary file onto the final
name (only ever emitted right after a verified non-empty write, so the
absent-temp branch is unreachable in generated traces). -/
def applyOp (fs : VFS) : FsOp → VFS
  | FsOp.removeTemp => { fs with temp := none }
  | FsOp.writeMeta => { fs with meta := true }
  | FsOp.writeTemp n => { fs with temp := some n }
  | FsOp.promote =>
      match fs.temp with
      | some n => { fs with temp := none, final := some n }
      | none => fs
  | FsOp.moveFinal =>
      match fs.final with
      | some n => { fs with final := none, targetVideo := some n }
      | none => fs
  | FsOp.moveMeta =>
      if fs.meta then { fs with meta := false, targetMeta := true } else fs

/-- Folding a trace of operations over a state. -/
def applyOps (fs : VFS) (ops : List FsOp) : VFS := ops.foldl applyOp fs

/-- The trace of filesystem operations a download_video run performs,
under the same oracle as download_video; a prefix of this trace is the
state left behind when the run fails or the process is interrupted at that
point. -/
def download_video_ops (stop : Bool) (env : Env) (target : Bool) : List FsOp :=
  if stop then []
  else
    FsOp.removeTemp ::
      ((if env.fetchOk then
          if env.metaWriteOk then
            FsOp.writeMeta ::
              (if env.streamFound then
                FsOp.writeTemp env.dlBytes ::
                  (if env.dlOk then
                    if 0 < env.dlBytes then
                      FsOp.promote ::
                        (if target then
                          if env.renameOk then [FsOp.moveFinal, FsOp.moveMeta] else []
                         else [])
                    else []
                   else [])
               else [])
          else []
        else []) ++ [FsOp.removeTemp])

/-- Embeds ChannelDownloader.download_channel.  The first statement of the
source clears the stop flag, so every dispatched job and the url walk run
with a cleared flag regardless of the flag value at entry; the entry value
is retained as a parameter to state that fact.  The url list is obtained
non-forced; each url is then dispatched to download_video (the worker pool
is sequentialized, the flag not being mutated during a batch in this
single-run model).  An exception escaping get_video_urls escapes
download_channel as well. -/
def download_channel (stop0 : Bool) (cached : Option (List String))
    (channelOk : Bool) (resps : List PageResp)
    (behav : String → Env × VFS) :
    Except Unit (List String × List DVResult) :=
  let stop := false
  let gvu := get_video_urls false stop cached channelOk resps
  match gvu.1 with
  | Except.error e => Except.error e
  | Except.ok urls =>
      Except.ok (urls, urls.map (fun u => download_video stop (behav u).1 false (behav u).2))

/-! ## Concrete fixtures for counterexamples and witnesses -/

/-- Stream with label 144p. -/
def mk144 : YStream := ⟨some "144p"⟩
/-- Stream with label 360p. -/
def mk360 : YStream := ⟨some "360p"⟩
/-- Stream with label 480p. -/
def mk480 : YStream := ⟨some "480p"⟩
/-- Stream with label 720p. -/
def mk720 : YStream := ⟨some "720p"⟩

/-- Oracle of a fully successful run writing 7 bytes. -/
def envOK : Env := ⟨true, true, true, true, true, 7⟩
/-- Oracle of a run whose metadata file write fails. -/
def envMetaFail : Env := ⟨true, false, true, true, true, 7⟩

/-- Empty video filesystem. -/
def vfsEmpty : VFS := ⟨none, none, false, none, false⟩
/-- Filesystem of an already completed video: final file present, 5 bytes,
metadata cached. -/
def vfsDone : VFS := ⟨none, some 5, true, none, false⟩

/-- A concrete metadata record. -/
def m0 : VideoMetadataModel :=
  ⟨"vid1", "https://www.youtube.com/watch?v=vid1", "t", "d", "a", 10,
   some "2024-01-01", ["k1", "k2"], "https://www.youtube.com/@c", []⟩

/-! ## Helper lemmas -/

/-- Deserializing a serialized keyword list recovers the list. -/
theorem decodeStrList_map (ks : List String) :
    decodeStrList (ks.map JVal.str) = some ks := by
  induction ks with
  | nil => rfl
  | cons k ks ih => simp [decodeStrList, ih]

/-- Deserializing a serialized metadata record recovers the record. -/
theorem decodeMeta_encodeMeta (m : VideoMetadataModel) :
    decodeMeta (encodeMeta m) = some m := by
  cases m with
  | mk fn u t d a len dt ks cu mv =>
    cases dt <;>
      simp [encodeMeta, decodeMeta, encodeDate, decodeDate, decodeStrList_map]

/-! ## Claims -/

/-- C8 counterexample: the claim says the channel directory path joins
the base directory with the channel name sanitized by stripping a leading
at sign; on the concrete channel name "@chan" the code joins the name
verbatim, which differs from the sanitized join. -/
theorem c8_counterexample :
    (get_channel_dir [] "out" "@chan").1 ≠
      pathJoin "out" (sanitize_channel_spec "@chan") := by decide

/-- C8 (amended): for every channel name, the channel directory path is
the deterministic join of the base output directory and the channel name
taken verbatim (no at-sign stripping); the directory is created when
absent, and a repeated call returns the same path and leaves the
directory state unchanged (idempotent, no error when it already
exists). -/
theorem c8_channel_dir_verbatim_join_idempotent (dirs : List String) (o c : String) :
    (get_channel_dir dirs o c).1 = pathJoin o c
    ∧ (get_channel_dir dirs o c).1 ∈ (get_channel_dir dirs o c).2
    ∧ get_channel_dir (get_channel_dir dirs o c).2 o c =
        ((get_channel_dir dirs o c).1, (get_channel_dir dirs o c).2) := by
  unfold get_channel_dir
  by_cases h : pathJoin o c ∈ dirs <;> simp [h]

/-- C7 counterexample: with the stop flag set before the batch starts, a
channel batch over one cached url still downloads the video: the job does
not short circuit, the provider stream download is invoked and succeeds. -/
theorem c7_counterexample :
    download_channel true (some ["u"]) true [] (fun _ => (envOK, vfsEmpty)) =
      Except.ok (["u"], [⟨true, ⟨none, some 7, true, none, false⟩, true⟩]) := rfl

/-- C7 (amended): download_channel clears the stop flag as its first
action, so the flag value at entry is irrelevant to the whole batch — a
stop requested before the batch starts does not suppress any download.
The short circuit exists only for a flag observed set at job entry, i.e.
one set after the batch began: download_video with the flag set returns
failure immediately without touching the filesystem or the provider. -/
theorem c7_stop_flag_cleared_at_entry :
    (∀ (stop0 : Bool) (cached : Option (List String)) (chOk : Bool)
        (resps : List PageResp) (behav : String → Env × VFS),
        download_channel stop0 cached chOk resps behav =
          download_channel false cached chOk resps behav)
    ∧ (∀ (env : Env) (target : Bool) (fs : VFS),
        download_video true env target fs = ⟨false, fs, false⟩) :=
  ⟨fun _ _ _ _ _ => rfl, fun _ _ _ => rfl⟩

/-- C6: get_video_urls consults the cache exactly when force_refresh is
false: with a cached file present it returns the cached urls verbatim
without contacting the provider and leaves the file unchanged; with
force_refresh true it ignores any cached file, re-enumerates via the
provider, and overwrites the file with the fresh list (stated for an
enumeration that completes without a provider error). -/
theorem c6_cache_bypass (stop : Bool) (u : List String) (cached : Option (List String))
    (chOk : Bool) (resps resps2 : List PageResp)
    (hok : (walk stop resps2).2 = false) :
    get_video_urls false stop (some u) chOk resps = (Except.ok u, some u, false)
    ∧ get_video_urls true stop cached true resps2 =
        (Except.ok (walk stop resps2).1, some (walk stop resps2).1, true) := by
  constructor
  · simp [get_video_urls]
  · simp [get_video_urls, hok]

/-- C6 witness: concrete cache hit and concrete forced refresh. -/
theorem c6_witness :
    get_video_urls false false (some ["a"]) true [] = (Except.ok ["a"], some ["a"], false)
    ∧ get_video_urls true false (some ["b"]) true [PageResp.page ["x"] false] =
        (Except.ok (walk false [PageResp.page ["x"] false]).1,
         some (walk false [PageResp.page ["x"] false]).1, true) :=
  c6_cache_bypass false ["a"] (some ["b"]) true [] [PageResp.page ["x"] false] rfl

/-- C3 counterexample: a non-cached walk whose second provider request
raises.  The claim says the partial list ["u1"] is persisted and
returned; the code propagates the exception and writes nothing: the
result is an error and the file is still absent. -/
theorem c3_counterexample :
    (get_video_urls false false none true
        [PageResp.page ["u1"] true, PageResp.err]).1 = Except.error ()
    ∧ (get_video_urls false false none true
        [PageResp.page ["u1"] true, PageResp.err]).2.1 = none := ⟨rfl, rfl⟩

/-- C3 (amended): if the provider enumeration raises partway through a
non-cached get_video_urls walk, the exception propagates out of
get_video_urls, the accumulated partial list is discarded, and the
channel video-list file is left unchanged (nothing is written); only the
stop-flag cancellation path flushes a partial list. -/
theorem c3_enum_error_propagates_nothing_written (fr stop : Bool)
    (cached : Option (List String)) (resps : List PageResp)
    (hmiss : fr = true ∨ cached = none)
    (hwalk : (walk stop resps).2 = true) :
    (get_video_urls fr stop cached true resps).1 = Except.error ()
    ∧ (get_video_urls fr stop cached true resps).2.1 = cached
    ∧ (get_video_urls fr stop cached true resps).2.2 = true := by
  rcases hmiss with h | h <;> subst h <;> simp [get_video_urls, hwalk]

/-- C3 witness: concrete erroring walk with no cache. -/
theorem c3_witness :
    (get_video_urls false false none true [PageResp.err]).1 = Except.error ()
    ∧ (get_video_urls false false none true [PageResp.err]).2.1 = none
    ∧ (get_video_urls false false none true [PageResp.err]).2.2 = true :=
  c3_enum_error_propagates_nothing_written false false none [PageResp.err]
    (Or.inr rfl) rfl

/-- C1 counterexample: a video whose final file is already present and
non-empty (is_video_downloaded holds), yet download_video invokes the
provider stream download again — there is no already-downloaded skip. -/
theorem c1_counterexample :
    is_video_downloaded vfsDone = true
    ∧ (download_video false envOK false vfsDone).streamInvoked = true := ⟨rfl, rfl⟩

/-- C1 (amended): download_video performs no already-downloaded check:
even when the final file already exists with non-zero size, it re-invokes
the provider stream download, and returns success when that download
yields a non-empty file; calling it twice on an already-completed video
returns success both times but each call performs the download again, the
final file remaining complete throughout. -/
theorem c1_no_skip_always_redownloads (fs : VFS) (env : Env)
    (hdone : is_video_downloaded fs = true)
    (hfetch : env.fetchOk = true) (hmeta : env.metaWriteOk = true)
    (hstream : env.streamFound = true) (hdl : env.dlOk = true)
    (hn : 0 < env.dlBytes) :
    (download_video false env false fs).success = true
    ∧ (download_video false env false fs).streamInvoked = true
    ∧ is_video_downloaded (download_video false env false fs).fs = true
    ∧ (download_video false env false (download_video false env false fs).fs).success = true
    ∧ (download_video false env false (download_video false env false fs).fs).streamInvoked
        = true := by
  simp [download_video, is_video_downloaded, hfetch, hmeta, hstream, hdl, hn]

/-- C1 witness: concrete completed video, fully successful provider. -/
theorem c1_witness :
    (download_video false envOK false vfsDone).success = true
    ∧ (download_video false envOK false vfsDone).streamInvoked = true
    ∧ is_video_downloaded (download_video false envOK false vfsDone).fs = true
    ∧ (download_video false envOK false
        (download_video false envOK false vfsDone).fs).success = true
    ∧ (download_video false envOK false
        (download_video false envOK false vfsDone).fs).streamInvoked = true :=
  c1_no_skip_always_redownloads vfsDone envOK rfl rfl rfl rfl rfl (by decide)

/-- C5 counterexample: a failing metadata write.  save_video_metadata
raises (modelled as Except.error) instead of returning a not-saved
sentinel, and download_video with a failing metadata-save step returns
failure without ever invoking the stream download — the download does not
proceed. -/
theorem c5_counterexample :
    save_video_metadata_io false ⟨none⟩ m0 = Except.error ()
    ∧ (download_video false envMetaFail false vfsEmpty).success = false
    ∧ (download_video false envMetaFail false vfsEmpty).streamInvoked = false :=
  ⟨rfl, rfl, rfl⟩

/-- C5 (amended): save_video_metadata has no exception handler, so a
failure inside it raises to the caller; when the metadata-save step of
download_video fails, the outer handler catches the exception and
download_video returns failure for that video without invoking the stream
download, leaving only the stale-temp removal performed (the failure is
fatal to that one video, though not to the batch). -/
theorem c5_meta_failure_fatal_to_video (fs : VFS) (env : Env)
    (mfs : MetaFS) (m : VideoMetadataModel)
    (hmeta : env.metaWriteOk = false) (hfetch : env.fetchOk = true) :
    download_video false env false fs = ⟨false, { fs with temp := none }, false⟩
    ∧ save_video_metadata_io false mfs m = Except.error () := by
  constructor
  · simp [download_video, hfetch, hmeta]
  · rfl

/-- C5 witness: concrete failing metadata write. -/
theorem c5_witness :
    download_video false envMetaFail false vfsEmpty =
      ⟨false, { vfsEmpty with temp := none }, false⟩
    ∧ save_video_metadata_io false ⟨none⟩ m0 = Except.error () :=
  c5_meta_failure_fatal_to_video vfsEmpty envMetaFail ⟨none⟩ m0 rfl rfl

/-- C10: when download_video is called with a target path and the
download succeeds (including the renames), the committed video file is
relocated to the target path and the metadata JSON is relocated to the
target stem plus .json; neither remains at its original cache location
(both exist at rename time on this path: the final file was just
promoted and the metadata just saved). -/
theorem c10_target_rename_moves_metadata (fs : VFS) (env : Env)
    (hfetch : env.fetchOk = true) (hmeta : env.metaWriteOk = true)
    (hstream : env.streamFound = true) (hdl : env.dlOk = true)
    (hn : 0 < env.dlBytes) (hren : env.renameOk = true) :
    download_video false env true fs =
      ⟨true, ⟨none, none, false, some env.dlBytes, true⟩, true⟩ := by
  simp [download_video, rename_video_files, hfetch, hmeta, hstream, hdl, hn, hren]

/-- C10 witness: concrete targeted download, fully successful provider. -/
theorem c10_witness :
    download_video false envOK true vfsDone =
      ⟨true, ⟨none, none, false, some envOK.dlBytes, true⟩, true⟩ :=
  c10_target_rename_moves_metadata vfsDone envOK rfl rfl rfl rfl (by decide) rfl

/-- C9: after a fresh (non-cached or forced) fetch, get_video_metadata
returns exactly the deserialization of the metadata file it just wrote,
which is field-for-field the record that was serialized; likewise a
get_video_metadata immediately following a save_video_metadata for the
same video returns the saved record, not the in-memory provider object of
the later call. -/
theorem c9_metadata_round_trip (fr : Bool) (fs : MetaFS) (m m2 : VideoMetadataModel)
    (hfresh : fr = true ∨ fs.file = none) :
    (get_video_metadata fr fs m).1 = some m
    ∧ (get_video_metadata fr fs m).2.file = some (encodeMeta m)
    ∧ (get_video_metadata fr fs m).1 = decodeMeta (encodeMeta m)
    ∧ (get_video_metadata false (save_video_metadata fs m) m2).1 = some m := by
  rcases hfresh with h | h
  · subst h
    simp [get_video_metadata, save_video_metadata, decodeMeta_encodeMeta]
  · simp [get_video_metadata, save_video_metadata, decodeMeta_encodeMeta, h]

/-- C9 witness: concrete fresh fetch on an empty cache. -/
theorem c9_witness :
    (get_video_metadata false ⟨none⟩ m0).1 = some m0
    ∧ (get_video_metadata false ⟨none⟩ m0).2.file = some (encodeMeta m0)
    ∧ (get_video_metadata false ⟨none⟩ m0).1 = decodeMeta (encodeMeta m0)
    ∧ (get_video_metadata false (save_video_metadata ⟨none⟩ m0) m0).1 = some m0 :=
  c9_metadata_round_trip false ⟨none⟩ m0 m0 (Or.inr rfl)

/-! ## Helper lemmas for the resolution selector -/

/-- Membership through the insertion step. -/
theorem mem_insertDesc (x a : YStream) (l : List YStream) :
    a ∈ insertDesc x l ↔ a = x ∨ a ∈ l := by
  induction l with
  | nil => simp [insertDesc]
  | cons y ys ih =>
    by_cases h : resKey y < resKey x <;> simp [insertDesc, h, ih] <;> tauto

/-- The insertion step preserves descending sortedness. -/
theorem insertDesc_pairwise (x : YStream) (l : List YStream)
    (h : l.Pairwise (fun a b => resKey b ≤ resKey a)) :
    (insertDesc x l).Pairwise (fun a b => resKey b ≤ resKey a) := by
  induction l with
  | nil => simp [insertDesc]
  | cons y ys ih =>
    rw [List.pairwise_cons] at h
    obtain ⟨hy, hys⟩ := h
    by_cases hlt : resKey y < resKey x
    · simp only [insertDesc, if_pos hlt]
      refine List.Pairwise.cons ?_ (List.Pairwise.cons hy hys)
      intro z hz
      rcases List.mem_cons.mp hz with rfl | hz
      · exact Nat.le_of_lt hlt
      · exact Nat.le_trans (hy z hz) (Nat.le_of_lt hlt)
    · simp only [insertDesc, if_neg hlt]
      refine List.Pairwise.cons ?_ (ih hys)
      intro z hz
      rcases (mem_insertDesc x z ys).mp hz with rfl | hz
      · exact Nat.le_of_not_lt hlt
      · exact hy z hz

/-- Membership through the descending sort. -/
theorem mem_sortDesc (a : YStream) (l : List YStream) :
    a ∈ sortDesc l ↔ a ∈ l := by
  induction l with
  | nil => simp [sortDesc]
  | cons x xs ih => simp [sortDesc, mem_insertDesc, ih]

/-- The descending sort is descending. -/
theorem sortDesc_pairwise (l : List YStream) :
    (sortDesc l).Pairwise (fun a b => resKey b ≤ resKey a) := by
  induction l with
  | nil => simp [sortDesc]
  | cons x xs ih => exact insertDesc_pairwise x _ ih

/-- The insertion step never returns the empty list. -/
theorem insertDesc_ne_nil (x : YStream) (l : List YStream) :
    insertDesc x l ≠ [] := by
  cases l with
  | nil => simp [insertDesc]
  | cons y ys =>
    simp only [insertDesc]
    split <;> simp

/-- The descending sort returns the empty list only on the empty list. -/
theorem sortDesc_eq_nil_iff (l : List YStream) : sortDesc l = [] ↔ l = [] := by
  cases l with
  | nil => simp [sortDesc]
  | cons x xs => simp [sortDesc, insertDesc_ne_nil]

/-- When the descending scan returns a stream, it is a member, its
resolution is at most the target, and it has the greatest key among the
members with key at most the target. -/
theorem findLE_eq_some (T : Nat) (l : List YStream) (t : YStream)
    (hsort : l.Pairwise (fun a b => resKey b ≤ resKey a))
    (h : findLE T l = some t) :
    t ∈ l ∧ resKey t ≤ T ∧ ∀ s ∈ l, resKey s ≤ T → resKey s ≤ resKey t := by
  induction l with
  | nil => simp [findLE] at h
  | cons s rest ih =>
    rw [List.pairwise_cons] at hsort
    obtain ⟨hs, hrest⟩ := hsort
    rcases hres : s.resolution with _ | r
    · simp only [findLE, hres] at h
      obtain ⟨h1, h2, h3⟩ := ih hrest h
      refine ⟨List.mem_cons_of_mem _ h1, h2, ?_⟩
      intro z hz hzT
      rcases List.mem_cons.mp hz with rfl | hz
      · simp [resKey, hres]
      · exact h3 z hz hzT
    · simp only [findLE, hres] at h
      by_cases hle : resInt r ≤ T
      · rw [if_pos hle] at h
        obtain rfl := Option.some.inj h
        refine ⟨List.mem_cons_self _ _, by simpa [resKey, hres] using hle, ?_⟩
        intro z hz _
        rcases List.mem_cons.mp hz with rfl | hz
        · exact Nat.le_refl _
        · exact hs z hz
      · rw [if_neg hle] at h
        obtain ⟨h1, h2, h3⟩ := ih hrest h
        refine ⟨List.mem_cons_of_mem _ h1, h2, ?_⟩
        intro z hz hzT
        rcases List.mem_cons.mp hz with rfl | hz
        · exact absurd (by simpa [resKey, hres] using hzT) hle
        · exact h3 z hz hzT

/-- When the descending scan returns none, every labelled member parses
strictly above the target. -/
theorem findLE_eq_none (T : Nat) (l : List YStream)
    (h : findLE T l = none) :
    ∀ s ∈ l, ∀ r, s.resolution = some r → T < resInt r := by
  induction l with
  | nil => simp
  | cons s rest ih =>
    have hrest : findLE T rest = none := by
      rcases hres : s.resolution with _ | r2
      · simpa only [findLE, hres] using h
      · simp only [findLE, hres] at h
        by_cases hle : resInt r2 ≤ T
        · rw [if_pos hle] at h; cases h
        · rwa [if_neg hle] at h
    intro z hz r hr
    rcases List.mem_cons.mp hz with rfl | hz
    · simp only [findLE, hr] at h
      by_cases hle : resInt r ≤ T
      · rw [if_pos hle] at h; cases h
      · exact Nat.lt_of_not_le hle
    · exact ih hrest z hz r hr

/-- The head of a list is a member. -/
theorem mem_of_head?_eq_some (l : List YStream) (a : YStream)
    (h : l.head? = some a) : a ∈ l := by
  cases l with
  | nil => cases h
  | cons x xs =>
    obtain rfl : x = a := by simpa using h
    exact List.mem_cons_self _ _

/-- The head of a descending list has the greatest key. -/
theorem head?_max (l : List YStream) (t : YStream)
    (hsort : l.Pairwise (fun a b => resKey b ≤ resKey a))
    (h : l.head? = some t) :
    ∀ s ∈ l, resKey s ≤ resKey t := by
  cases l with
  | nil => cases h
  | cons x xs =>
    obtain rfl : x = t := by simpa using h
    rw [List.pairwise_cons] at hsort
    intro s hs
    rcases List.mem_cons.mp hs with rfl | hs
    · exact Nat.le_refl _
    · exact hsort.1 s hs

/-- The selector returns a stream on every non-empty labelled input. -/
theorem selector_total (streams : List YStream) (pref : String)
    (hne : streams ≠ []) (hall : ∀ s ∈ streams, s.resolution.isSome = true) :
    get_stream_by_resolution streams pref ≠ none := by
  have hfilter : streams.filter (fun s => s.resolution.isSome) = streams :=
    List.filter_eq_self.mpr hall
  have hLne : order_by_resolution_desc streams ≠ [] := by
    rw [order_by_resolution_desc, hfilter]
    intro hnil
    exact hne ((sortDesc_eq_nil_iff streams).mp hnil)
  have hemp : ¬ ((order_by_resolution_desc streams).isEmpty = true) := by
    cases hcase : order_by_resolution_desc streams with
    | nil => exact absurd hcase hLne
    | cons x xs => simp
  simp only [get_stream_by_resolution]
  rw [if_neg hemp]
  split
  · simp
  · split
    · simp
    · cases hcase : order_by_resolution_desc streams with
      | nil => exact absurd hcase hLne
      | cons x xs => simp

/-- Full characterization of a returned stream: member of the input;
the exact label match when one exists; otherwise the greatest-keyed
stream at most the target when one exists; otherwise the greatest-keyed
stream overall. -/
theorem selector_spec (streams : List YStream) (pref : String) (t : YStream)
    (hall : ∀ s ∈ streams, s.resolution.isSome = true)
    (heq : get_stream_by_resolution streams pref = some t) :
    t ∈ streams
    ∧ ((∃ s ∈ streams, s.resolution = some pref) → t.resolution = some pref)
    ∧ ((¬ ∃ s ∈ streams, s.resolution = some pref) →
        (∃ s ∈ streams, resKey s ≤ resInt pref) →
        resKey t ≤ resInt pref
          ∧ ∀ s ∈ streams, resKey s ≤ resInt pref → resKey s ≤ resKey t)
    ∧ ((¬ ∃ s ∈ streams, resKey s ≤ resInt pref) →
        ∀ s ∈ streams, resKey s ≤ resKey t) := by
  have hfilter : streams.filter (fun s => s.resolution.isSome) = streams :=
    List.filter_eq_self.mpr hall
  have hmemL : ∀ a : YStream, a ∈ order_by_resolution_desc streams ↔ a ∈ streams := by
    intro a
    rw [order_by_resolution_desc, hfilter, mem_sortDesc]
  have hsortL : (order_by_resolution_desc streams).Pairwise
      (fun a b => resKey b ≤ resKey a) := by
    rw [order_by_resolution_desc]
    exact sortDesc_pairwise _
  simp only [get_stream_by_resolution] at heq
  split at heq
  · cases heq
  · split at heq
    · -- exact label match found
      rename_i e hfind
      obtain rfl : t = e := (Option.some.inj heq).symm
      have htmem : t ∈ streams := (hmemL t).mp (List.mem_of_find?_eq_some hfind)
      have hres : t.resolution = some pref := by
        have hp := List.find?_some hfind
        simpa using hp
      refine ⟨htmem, fun _ => hres, fun hno _ => absurd ⟨t, htmem, hres⟩ hno,
        fun hno => absurd ⟨t, htmem, by simp [resKey, hres]⟩ hno⟩
    · rename_i hfind
      have hnoexact : ¬ ∃ s ∈ streams, s.resolution = some pref := by
        rintro ⟨s, hsmem, hsres⟩
        have hnone := List.find?_eq_none.mp hfind s ((hmemL s).mpr hsmem)
        simp [hsres] at hnone
      split at heq
      · -- closest below the target
        rename_i u hLE
        obtain rfl : t = u := (Option.some.inj heq).symm
        obtain ⟨htm, htle, htmax⟩ := findLE_eq_some (resInt pref) _ t hsortL hLE
        have htmem : t ∈ streams := (hmemL t).mp htm
        refine ⟨htmem, fun hex => absurd hex hnoexact, fun _ _ => ⟨htle, ?_⟩,
          fun hno => absurd ⟨t, htmem, htle⟩ hno⟩
        intro s hsmem hsle
        exact htmax s ((hmemL s).mpr hsmem) hsle
      · -- all above the target: highest available
        rename_i hLE
        have htmem : t ∈ streams := (hmemL t).mp (mem_of_head?_eq_some _ t heq)
        have hmax : ∀ s ∈ streams, resKey s ≤ resKey t := by
          intro s hsmem
          exact head?_max _ t hsortL heq s ((hmemL s).mpr hsmem)
        refine ⟨htmem, fun hex => absurd hex hnoexact, fun _ hex => absurd hex ?_,
          fun _ => hmax⟩
        rintro ⟨s, hsmem, hsle⟩
        obtain ⟨r, hr⟩ := Option.isSome_iff_exists.mp (hall s hsmem)
        have hgt := findLE_eq_none (resInt pref) _ hLE s ((hmemL s).mpr hsmem) r hr
        have hk : resKey s = resInt r := by simp [resKey, hr]
        omega

/-- C2: get_stream_by_resolution returns none exactly on an (effectively)
empty stream collection, and otherwise returns the exact-label match when
one exists, else the highest-resolution stream whose numeric label is at
most the preferred value, else the highest-resolution stream available;
the three concrete examples of the claim hold. -/
theorem c2_resolution_selector :
    (∀ pref : String, get_stream_by_resolution [] pref = none)
    ∧ (∀ (streams : List YStream) (pref : String),
        streams ≠ [] → (∀ s ∈ streams, s.resolution.isSome = true) →
        get_stream_by_resolution streams pref ≠ none)
    ∧ (∀ (streams : List YStream) (pref : String) (t : YStream),
        (∀ s ∈ streams, s.resolution.isSome = true) →
        get_stream_by_resolution streams pref = some t →
        t ∈ streams
        ∧ ((∃ s ∈ streams, s.resolution = some pref) → t.resolution = some pref)
        ∧ ((¬ ∃ s ∈ streams, s.resolution = some pref) →
            (∃ s ∈ streams, resKey s ≤ resInt pref) →
            resKey t ≤ resInt pref
              ∧ ∀ s ∈ streams, resKey s ≤ resInt pref → resKey s ≤ resKey t)
        ∧ ((¬ ∃ s ∈ streams, resKey s ≤ resInt pref) →
            ∀ s ∈ streams, resKey s ≤ resKey t))
    ∧ get_stream_by_resolution [mk360, mk480, mk720] "1080p" = some mk720
    ∧ get_stream_by_resolution [mk360, mk480, mk720] "480p" = some mk480
    ∧ get_stream_by_resolution [mk144] "1080p" = some mk144 :=
  ⟨fun _ => rfl, selector_total, selector_spec, by decide, by decide, by decide⟩

/-- C2 witness: the characterization applied to the concrete stream set
of the claim with preference 1080p, returning the 720p stream. -/
theorem c2_witness :
    mk720 ∈ [mk360, mk480, mk720]
    ∧ ((∃ s ∈ [mk360, mk480, mk720], s.resolution = some "1080p") →
        mk720.resolution = some "1080p")
    ∧ ((¬ ∃ s ∈ [mk360, mk480, mk720], s.resolution = some "1080p") →
        (∃ s ∈ [mk360, mk480, mk720], resKey s ≤ resInt "1080p") →
        resKey mk720 ≤ resInt "1080p"
          ∧ ∀ s ∈ [mk360, mk480, mk720],
              resKey s ≤ resInt "1080p" → resKey s ≤ resKey mk720)
    ∧ ((¬ ∃ s ∈ [mk360, mk480, mk720], resKey s ≤ resInt "1080p") →
        ∀ s ∈ [mk360, mk480, mk720], resKey s ≤ resKey mk720) :=
  c2_resolution_selector.2.2.1 [mk360, mk480, mk720] "1080p" mk720
    (by decide) (by decide)

/-! ## Helper lemmas for the commit invariant -/

/-- Folding a trace that contains no promote operation either leaves the
final file untouched or removes it; it never creates or changes it. -/
theorem final_no_promote (ops : List FsOp) (fs : VFS)
    (h : FsOp.promote ∉ ops) :
    (applyOps fs ops).final = fs.final ∨ (applyOps fs ops).final = none := by
  induction ops generalizing fs with
  | nil => exact Or.inl rfl
  | cons op rest ih =>
    have hop : op ≠ FsOp.promote := fun he => h (he ▸ List.mem_cons_self _ _)
    have hrest : FsOp.promote ∉ rest := fun hm => h (List.mem_cons_of_mem _ hm)
    have hstep : (applyOp fs op).final = fs.final ∨ (applyOp fs op).final = none := by
      cases op with
      | removeTemp => exact Or.inl rfl
      | writeMeta => exact Or.inl rfl
      | writeTemp n => exact Or.inl rfl
      | promote => exact absurd rfl hop
      | moveFinal =>
        rcases hf : fs.final with _ | n
        · exact Or.inl (by simp [applyOp, hf])
        · exact Or.inr (by simp [applyOp, hf])
      | moveMeta =>
        by_cases hm : fs.meta = true
        · exact Or.inl (by simp [applyOp, hm])
        · exact Or.inl (by simp [applyOp, hm])
    have hrec := ih (applyOp fs op) hrest
    show (applyOps (applyOp fs op) rest).final = fs.final
        ∨ (applyOps (applyOp fs op) rest).final = none
    rcases hrec with h1 | h1
    · rw [h1]; exact hstep
    · exact Or.inr h1

/-- An absent final file stays absent through a promote-free trace. -/
theorem final_none_stable (ops : List FsOp) (fs : VFS)
    (h : FsOp.promote ∉ ops) (h0 : fs.final = none) :
    (applyOps fs ops).final = none := by
  rcases final_no_promote ops fs h with h1 | h1
  · rw [h1, h0]
  · exact h1

/-- The operation trace agrees with download_video: folding the full
trace over the initial state yields exactly the filesystem state that
download_video returns, on every oracle. -/
theorem download_video_ops_consistent (stop : Bool) (env : Env) (target : Bool)
    (fs : VFS) :
    (download_video stop env target fs).fs =
      applyOps fs (download_video_ops stop env target) := by
  by_cases hstop : stop = true
  · simp [download_video, download_video_ops, hstop, applyOps]
  by_cases hf : env.fetchOk = true
  case neg =>
    simp [download_video, download_video_ops, hstop, hf, applyOps, applyOp]
  by_cases hm : env.metaWriteOk = true
  case neg =>
    simp [download_video, download_video_ops, hstop, hf, hm, applyOps, applyOp]
  by_cases hs : env.streamFound = true
  case neg =>
    simp [download_video, download_video_ops, hstop, hf, hm, hs, applyOps, applyOp]
  by_cases hok : env.dlOk = true
  case neg =>
    simp [download_video, download_video_ops, hstop, hf, hm, hs, hok,
      applyOps, applyOp]
  by_cases hn : 0 < env.dlBytes
  case neg =>
    simp [download_video, download_video_ops, hstop, hf, hm, hs, hok, hn,
      applyOps, applyOp]
  by_cases ht : target = true
  · by_cases hr : env.renameOk = true <;>
      simp [download_video, download_video_ops, hstop, hf, hm, hs, hok, hn, ht,
        hr, applyOps, applyOp, rename_video_files]
  · simp [download_video, download_video_ops, hstop, hf, hm, hs, hok, hn, ht,
      applyOps, applyOp]

/-- State of the final file after any number of steps of the committing
trace shape: absent through the first three operations, then exactly the
verified write size, a promote-free tail never corrupting it. -/
theorem c4_take_shape (tail : List FsOp) (fs0 : VFS) (h0 : fs0.final = none)
    (n : Nat) (htail : FsOp.promote ∉ tail) (k : Nat) :
    (applyOps fs0 ((FsOp.removeTemp :: FsOp.writeMeta :: FsOp.writeTemp n ::
        FsOp.promote :: tail).take k)).final = none
    ∨ (applyOps fs0 ((FsOp.removeTemp :: FsOp.writeMeta :: FsOp.writeTemp n ::
        FsOp.promote :: tail).take k)).final = some n := by
  rcases k with _ | _ | _ | _ | m
  · exact Or.inl h0
  · exact Or.inl h0
  · exact Or.inl h0
  · exact Or.inl h0
  · have hnp : FsOp.promote ∉ tail.take m :=
      fun hmem => htail (List.take_subset m tail hmem)
    have key := final_no_promote (tail.take m)
      ⟨none, some n, true, fs0.targetVideo, fs0.targetMeta⟩ hnp
    rcases key with h1 | h1
    · exact Or.inr h1
    · exact Or.inl h1

/-- C4: in every run of download_video, interrupted at any point (every
take-k stage of its operation trace), the final file is either absent or
holds exactly the bytes of a stream download that returned normally and
was verified non-empty: the final name is only ever created by the
promote (os.replace) of the verified temporary file, so it never holds a
zero-byte or partially written file. -/
theorem c4_final_commit_atomic (stop : Bool) (env : Env) (target : Bool)
    (fs0 : VFS) (h0 : fs0.final = none) (k : Nat) :
    (applyOps fs0 ((download_video_ops stop env target).take k)).final = none
    ∨ (env.dlOk = true ∧ 0 < env.dlBytes
        ∧ (applyOps fs0 ((download_video_ops stop env target).take k)).final
            = some env.dlBytes) := by
  by_cases hstop : stop = true
  · refine Or.inl (final_none_stable _ fs0 (fun hmem => ?_) h0)
    have h2 := List.take_subset k _ hmem
    simp [download_video_ops, hstop] at h2
  by_cases hf : env.fetchOk = true
  case neg =>
    refine Or.inl (final_none_stable _ fs0 (fun hmem => ?_) h0)
    have h2 := List.take_subset k _ hmem
    simp [download_video_ops, hstop, hf] at h2
  by_cases hm : env.metaWriteOk = true
  case neg =>
    refine Or.inl (final_none_stable _ fs0 (fun hmem => ?_) h0)
    have h2 := List.take_subset k _ hmem
    simp [download_video_ops, hstop, hf, hm] at h2
  by_cases hs : env.streamFound = true
  case neg =>
    refine Or.inl (final_none_stable _ fs0 (fun hmem => ?_) h0)
    have h2 := List.take_subset k _ hmem
    simp [download_video_ops, hstop, hf, hm, hs] at h2
  by_cases hok : env.dlOk = true
  case neg =>
    refine Or.inl (final_none_stable _ fs0 (fun hmem => ?_) h0)
    have h2 := List.take_subset k _ hmem
    simp [download_video_ops, hstop, hf, hm, hs, hok] at h2
  by_cases hn : 0 < env.dlBytes
  case neg =>
    refine Or.inl (final_none_stable _ fs0 (fun hmem => ?_) h0)
    have h2 := List.take_subset k _ hmem
    simp [download_video_ops, hstop, hf, hm, hs, hok, hn] at h2
  have hops : download_video_ops stop env target =
      FsOp.removeTemp :: FsOp.writeMeta :: FsOp.writeTemp env.dlBytes ::
        FsOp.promote ::
        ((if target = true then
            (if env.renameOk = true then [FsOp.moveFinal, FsOp.moveMeta] else [])
          else []) ++ [FsOp.removeTemp]) := by
    simp [download_video_ops, hstop, hf, hm, hs, hok, hn]
  have htail : FsOp.promote ∉
      ((if target = true then
          (if env.renameOk = true then [FsOp.moveFinal, FsOp.moveMeta] else [])
        else []) ++ [FsOp.removeTemp]) := by
    by_cases ht : target = true <;> by_cases hr : env.renameOk = true <;>
      simp [ht, hr]
  rw [hops]
  rcases c4_take_shape _ fs0 h0 env.dlBytes htail k with h1 | h1
  · exact Or.inl h1
  · exact Or.inr ⟨hok, hn, h1⟩

/-- C4 witness: four steps into a concrete successful run the final file
holds exactly the verified non-empty write. -/
theorem c4_witness :
    (applyOps vfsEmpty ((download_video_ops false envOK false).take 4)).final = none
    ∨ (envOK.dlOk = true ∧ 0 < envOK.dlBytes
        ∧ (applyOps vfsEmpty ((download_video_ops false envOK false).take 4)).final
            = some envOK.dlBytes) :=
  c4_final_commit_atomic false envOK false vfsEmpty rfl 4

end YVD
